import Mathlib

/-!
Verification of the empress tree-layout engine (`empress/tree.py`).

The Python code computes, for a rooted arbitrary-arity tree with branch
lengths, per-node geometry attributes (`update_geometry`) and 2D layout
coordinates under a rectangular layout (`layout_rectangular`) and an
unrooted equal-angle layout (`layout_unrooted`, `update_unrooted_coords`),
orchestrated by `coords` which also re-centers every layout on the root
(`alter_coordinates_relative_to_root`).

The embedding below mirrors the Python code over an abstract linear ordered
field `K` (instantiated with `ℚ` for concrete evaluations and with `ℝ` when
the real trigonometric functions matter).  Trees are a mutual inductive
(tree / forest) so that every traversal is plain structural recursion.
Python's in-place attribute mutation is modelled by trees of attribute
records that each pass rewrites; an attribute that has not been assigned
yet is `none`.  `numpy.sin` / `numpy.cos` / `numpy.pi` are external to the
repository and are passed as parameters to the embedded functions.
-/

namespace Empress

mutual
inductive Tree (α : Type) : Type where
  | node : α → Forest α → Tree α
inductive Forest (α : Type) : Type where
  | nil : Forest α
  | cons : Tree α → Forest α → Forest α
end

/-- Attribute record of a node. -/
def Tree.attr {α : Type} : Tree α → α
  | .node a _ => a

/-- Children of a node. -/
def Tree.kids {α : Type} : Tree α → Forest α
  | .node _ cs => cs

/-- Whether a forest is empty; `is_tip()` of a node is emptiness of its
children. -/
def Forest.isNil {α : Type} : Forest α → Bool
  | .nil => true
  | .cons _ _ => false

/-- The children of a node as a `List`. -/
def Forest.toList {α : Type} : Forest α → List (Tree α)
  | .nil => []
  | .cons t ts => t :: ts.toList

mutual
/-- Number of nodes of a tree (`tree.count()` in skbio). -/
def Tree.nodeCount {α : Type} : Tree α → ℕ
  | .node _ cs => 1 + cs.nodeCount
termination_by structural t => t
/-- Number of nodes of a forest. -/
def Forest.nodeCount {α : Type} : Forest α → ℕ
  | .nil => 0
  | .cons t ts => t.nodeCount + ts.nodeCount
termination_by structural l => l
end

/-- Python's `max` on a (possibly empty) list: `none` on `[]`, otherwise the
maximum. -/
def listMax {β : Type} [LinearOrder β] : List β → Option β
  | [] => none
  | x :: xs => some (xs.foldl max x)

/-- Python's `min` on a (possibly empty) list. -/
def listMin {β : Type} [LinearOrder β] : List β → Option β
  | [] => none
  | x :: xs => some (xs.foldl min x)

section Geometry

variable {K : Type} [LinearOrderedField K]

/-- Per-node geometry attributes computed by `update_geometry`
(`tree.py`, lines 64-99). -/
structure GAttr (K : Type) where
  length : K
  depth : K
  height : K
  leafcount : ℕ
deriving DecidableEq

/-- Length-defaulting logic at the top of the `update_geometry` loop
(`tree.py`, lines 81-88): a missing length (or `use_lengths = False`)
is replaced by 5 for tips and 1 for internal nodes when lengths are not
used, and by 0 when lengths are used but missing. -/
def lengthDefault (useLengths : Bool) (isTip : Bool) (l : Option K) : K :=
  if l.isNone || !useLengths then
    if !useLengths then (if isTip then 5 else 1) else 0
  else l.getD 0

mutual
/-- Embedding of `Tree.update_geometry` (`tree.py`, lines 64-99).  The
method iterates over `self.postorder()`; each node's `height` and
`leafcount` read the already-updated children, which is exactly structural
recursion.  Crucially, the `depth` parameter `dp` is the *method argument*
(`None` in the only call site, `from_tree`): the loop assigns
`node.depth = (depth or 0) + node.length` with the same `depth` for every
node — it is never re-threaded down the tree. -/
def updateGeometry (useLengths : Bool) (dp : Option K) :
    Tree (Option K) → Tree (GAttr K)
  | .node l cs =>
    let cs2 := updateGeometryF useLengths dp cs
    let len := lengthDefault useLengths cs.isNil l
    match cs2 with
    | .nil =>
      .node { length := len, depth := dp.getD 0 + len, height := len,
              leafcount := 1 } .nil
    | .cons c cs3 =>
      .node { length := len, depth := dp.getD 0 + len,
              height := ((cs3.toList.map (fun s => s.attr.height)).foldl max
                          c.attr.height) + len,
              leafcount := ((Forest.cons c cs3).toList.map
                          (fun s => s.attr.leafcount)).sum }
        (.cons c cs3)
termination_by structural t => t
/-- `update_geometry` over a forest of siblings. -/
def updateGeometryF (useLengths : Bool) (dp : Option K) :
    Forest (Option K) → Forest (GAttr K)
  | .nil => .nil
  | .cons t ts =>
    .cons (updateGeometry useLengths dp t) (updateGeometryF useLengths dp ts)
termination_by structural l => l
end

end Geometry

section NodePredicates

variable {α : Type}

mutual
/-- `allSubB p t` holds when `p` holds of every subtree of `t` (each node
together with its descendants). -/
def allSubB (p : Tree α → Bool) : Tree α → Bool
  | .node a cs => p (.node a cs) && allSubF p cs
termination_by structural t => t
/-- `allSubB` over all trees of a forest. -/
def allSubF (p : Tree α → Bool) : Forest α → Bool
  | .nil => true
  | .cons t ts => allSubB p t && allSubF p ts
termination_by structural l => l
end

mutual
/-- `allKidPairsT p t` holds when `p parent child` holds of every
parent/child attribute pair of `t`. -/
def allKidPairsT (p : α → α → Bool) : Tree α → Bool
  | .node a cs => allKidPairsF p a cs
termination_by structural t => t
/-- `allKidPairsT` over the children of a node with attribute `a`. -/
def allKidPairsF (p : α → α → Bool) (a : α) : Forest α → Bool
  | .nil => true
  | .cons t ts => (p a t.attr && allKidPairsT p t) && allKidPairsF p a ts
termination_by structural l => l
end

end NodePredicates

section GeometryProps

variable {K : Type} [LinearOrderedField K]

/-- The depth recurrence asserted by the specification:
`depth(node) = depth(parent) + length(node)` for every non-root node and
`depth(root) = length(root)`. -/
def depthClaimCheck (t : Tree (GAttr K)) : Bool :=
  decide (t.attr.depth = t.attr.length) &&
    allKidPairsT (fun pa ca => decide (ca.depth = pa.depth + ca.length)) t

/-- The height recurrence asserted by the specification:
`height(node) = max(height(child) + length(child) for child in children)`
for internal nodes and `height(leaf) = length(leaf)`. -/
def heightClaimCheck (t : Tree (GAttr K)) : Bool :=
  allSubB (fun s =>
    match s.kids.toList.map Tree.attr with
    | [] => decide (s.attr.height = s.attr.length)
    | k :: ks =>
      decide (s.attr.height =
        (ks.map (fun g => g.height + g.length)).foldl max (k.height + k.length)))
    t

/-- The height recurrence the code actually implements:
`height(node) = max(height(child) for child in children) + length(node)`
for internal nodes and `height(leaf) = length(leaf)`. -/
def heightCodeCheck (t : Tree (GAttr K)) : Bool :=
  allSubB (fun s =>
    match s.kids.toList.map Tree.attr with
    | [] => decide (s.attr.height = s.attr.length)
    | k :: ks =>
      decide (s.attr.height = (ks.map GAttr.height).foldl max k.height
                + s.attr.length))
    t

/-- The depth assignment the code actually implements: every node of the
postorder loop receives `depth = (depth or 0) + node.length` with the same
`depth` argument `d0`, so every node's depth is `d0` plus its own length. -/
def depthCodeCheck (d0 : K) (t : Tree (GAttr K)) : Bool :=
  allSubB (fun s => decide (s.attr.depth = d0 + s.attr.length)) t

mutual
/-- Cumulative lengths from a node (inclusive) down to each descendant leaf,
one entry per leaf of the subtree. -/
def leafDists : Tree (GAttr K) → List K
  | .node a cs =>
    match cs with
    | .nil => [a.length]
    | .cons c cs3 => (leafDistsF (.cons c cs3)).map (fun d => d + a.length)
termination_by structural t => t
/-- `leafDists` concatenated over a forest. -/
def leafDistsF : Forest (GAttr K) → List K
  | .nil => []
  | .cons t ts => leafDists t ++ leafDistsF ts
termination_by structural l => l
end

/-- Per-subtree characterization of the computed `height` as the maximum
over cumulative node-to-leaf lengths. -/
def heightPathCheck (t : Tree (GAttr K)) : Bool :=
  allSubB (fun s => decide (listMax (leafDists s) = some s.attr.height)) t

end GeometryProps

section ConcreteTrees

/-- A two-node tree: root of branch length 1 with a single leaf child of
branch length 1. -/
def tRoot1Leaf1 : Tree (Option ℚ) :=
  .node (some 1) (.cons (.node (some 1) .nil) .nil)

/-- A two-node tree: root of branch length 1 with a single leaf child of
branch length 2. -/
def tRoot1Leaf2 : Tree (Option ℚ) :=
  .node (some 1) (.cons (.node (some 2) .nil) .nil)

end ConcreteTrees

section LayoutDefs

variable {K : Type} [LinearOrderedField K]

/-- Mutable attribute slots of a node during layout.  `length` and
`leafcount` come from `update_geometry`; the remaining attributes start
unset (`none`) and are written in place by the layout passes, mirroring
Python attribute assignment.  `x1/y1/x2/y2/angle` belong to the unrooted
layout, `xr/yr` to the rectangular layout, and
`highestchildyr/lowestchildyr` are the orchestrator's rendering aids. -/
structure LAttr (K : Type) where
  length : K
  leafcount : ℕ
  x1 : Option K := none
  y1 : Option K := none
  x2 : Option K := none
  y2 : Option K := none
  angle : Option K := none
  xr : Option K := none
  yr : Option K := none
  highestchildyr : Option K := none
  lowestchildyr : Option K := none
deriving DecidableEq

/-- Exceptions a layout run can raise. -/
inductive LayoutError where
  /-- `ValueError("All nodes in the tree have branch lengths of 0.")`
  raised by `layout_rectangular` when `max_width == 0`. -/
  | allZeroLengths
  /-- `NameError` from `update_unrooted_coords(*best_args)` when no
  candidate direction ever satisfied `scale >= best_scale`, so `best_args`
  was never assigned. -/
  | unsetBestArgs
deriving DecidableEq

mutual
/-- Initial layout state of a tree whose geometry attributes are known:
no coordinate attribute has been assigned yet. -/
def initLayout : Tree (GAttr K) → Tree (LAttr K)
  | .node a cs =>
    .node { length := a.length, leafcount := a.leafcount } (initLayoutF cs)
termination_by structural t => t
/-- Forest version of `initLayout`. -/
def initLayoutF : Forest (GAttr K) → Forest (LAttr K)
  | .nil => .nil
  | .cons t ts => .cons (initLayout t) (initLayoutF ts)
termination_by structural l => l
end

mutual
/-- First pass of `layout_rectangular` (`tree.py`, lines 251-262):
postorder walk threading the state `(prev_y, max_height)`; each tip
receives `yr = prev_y` (then `prev_y += 1` and the tip tracker
`max_height` is raised to `yr` if larger), and each internal node receives
the arithmetic mean of its direct children's `yr`. -/
def assignYrT (st : K × K) : Tree (LAttr K) → Tree (LAttr K) × (K × K)
  | .node a cs =>
    let p := assignYrF st cs
    match cs with
    | .nil =>
      (.node { a with yr := some st.1 } p.1,
        (st.1 + 1, if st.1 > st.2 then st.1 else st.2))
    | .cons _ _ =>
      let m := ((p.1.toList.map (fun c => c.attr.yr.getD 0)).sum) /
        (p.1.toList.length : K)
      (.node { a with yr := some m } p.1, p.2)
termination_by structural t => t
/-- `assignYrT` over the children of a node, left to right (postorder
visits a node's subtrees in order before the node itself). -/
def assignYrF (st : K × K) : Forest (LAttr K) → Forest (LAttr K) × (K × K)
  | .nil => (.nil, st)
  | .cons t ts =>
    let q := assignYrT st t
    let r := assignYrF q.2 ts
    (.cons q.1 r.1, r.2)
termination_by structural l => l
end

mutual
/-- Second pass of `layout_rectangular` (`tree.py`, lines 264-268): each
non-root node receives `xr = parent.xr + length`, with the running
maximum `max_width` threaded along (`if n.xr > max_width` in the code is
exactly this conditional).  `px` is the parent's `xr`. -/
def assignXrT (px mw : K) : Tree (LAttr K) → Tree (LAttr K) × K
  | .node a cs =>
    let x := px + a.length
    let p := assignXrF x (if x > mw then x else mw) cs
    (.node { a with xr := some x } p.1, p.2)
termination_by structural t => t
/-- `assignXrT` over a forest of siblings. -/
def assignXrF (px mw : K) : Forest (LAttr K) → Forest (LAttr K) × K
  | .nil => (.nil, mw)
  | .cons t ts =>
    let q := assignXrT px mw t
    let r := assignXrF px q.2 ts
    (.cons q.1 r.1, r.2)
termination_by structural l => l
end

mutual
/-- Final pass of `layout_rectangular` (`tree.py`, lines 297-299): every
node's `xr` and `yr` are multiplied by the scaling factors. -/
def scaleRectT (xs ys : K) : Tree (LAttr K) → Tree (LAttr K)
  | .node a cs =>
    .node { a with xr := a.xr.map (fun v => v * xs),
                   yr := a.yr.map (fun v => v * ys) } (scaleRectF xs ys cs)
termination_by structural t => t
/-- `scaleRectT` over a forest. -/
def scaleRectF (xs ys : K) : Forest (LAttr K) → Forest (LAttr K)
  | .nil => .nil
  | .cons t ts => .cons (scaleRectT xs ys t) (scaleRectF xs ys ts)
termination_by structural l => l
end

/-- Embedding of `Tree.layout_rectangular` (`tree.py`, lines 213-306).
Python raises `ValueError` after the two coordinate passes have already
mutated the nodes, so the function returns the tree state at that point
together with the outcome; on success the outcome carries the
`("Rectangular", "r")` name/suffix pair the method returns. -/
def layoutRectangular (width height : K) (t : Tree (LAttr K)) :
    Tree (LAttr K) × Except LayoutError (String × String) :=
  let p1 := assignYrT (0, 0) t
  let maxHeight := p1.2.2
  match p1.1 with
  | .node a cs =>
    let q := assignXrF 0 0 cs
    let t2 : Tree (LAttr K) := .node { a with xr := some 0 } q.1
    let maxWidth := q.2
    if maxWidth = 0 then (t2, .error .allZeroLengths)
    else
      let xScalingFactor := width / maxWidth
      let yScalingFactor := if maxHeight > 0 then height / maxHeight else 1
      (scaleRectT xScalingFactor yScalingFactor t2,
        .ok ("Rectangular", "r"))

/-- Replace the root's own branch length, leaving the rest of the tree
untouched. -/
def setRootLength (l : K) : Tree (LAttr K) → Tree (LAttr K)
  | .node a cs => .node { a with length := l } cs

mutual
/-- Maximum, over all strict descendants of a node whose accumulated x is
`acc`, of the accumulated x (sum of branch lengths from the root,
excluding the root's own length), folded into the running maximum `m`. -/
def maxCumXF (acc m : K) : Forest (LAttr K) → K
  | .nil => m
  | .cons t ts => maxCumXF acc (maxCumXT acc m t) ts
termination_by structural l => l
/-- Tree version of `maxCumXF`. -/
def maxCumXT (acc m : K) : Tree (LAttr K) → K
  | .node a cs =>
    let x := acc + a.length
    maxCumXF x (max m x) cs
termination_by structural t => t
end

/-- Maximum accumulated x over all nodes of the tree; the root contributes
an accumulated x of 0. -/
def maxCumX (t : Tree (LAttr K)) : K := maxCumXF 0 0 t.kids

/-- Whether a tree is a strict single chain (every node has at most one
child). -/
def isChainT {α : Type} : Tree α → Bool
  | .node _ cs =>
    match cs with
    | .nil => true
    | .cons c .nil => isChainT c
    | .cons _ (.cons _ _) => false
termination_by structural t => t

mutual
/-- The `yr` values of the tips of a tree, in postorder tip-visitation
order. -/
def tipsYrT : Tree (LAttr K) → List (Option K)
  | .node a cs =>
    match cs with
    | .nil => [a.yr]
    | .cons c cs3 => tipsYrF (.cons c cs3)
termination_by structural t => t
/-- `tipsYrT` concatenated over a forest. -/
def tipsYrF : Forest (LAttr K) → List (Option K)
  | .nil => []
  | .cons t ts => tipsYrT t ++ tipsYrF ts
termination_by structural l => l
end

mutual
/-- Number of tips of a tree. -/
def countTipsT {α : Type} : Tree α → ℕ
  | .node _ cs =>
    match cs with
    | .nil => 1
    | .cons c cs3 => countTipsF (.cons c cs3)
termination_by structural t => t
/-- Number of tips of a forest. -/
def countTipsF {α : Type} : Forest α → ℕ
  | .nil => 0
  | .cons t ts => countTipsT t + countTipsF ts
termination_by structural l => l
end

/-- One node's check that its `yr` (if it is internal) is the arithmetic
mean of its direct children's `yr`. -/
def meanYrNode (s : Tree (LAttr K)) : Bool :=
  match s.kids with
  | .nil => true
  | .cons _ _ =>
    decide (s.attr.yr = some
      (((s.kids.toList.map (fun c => c.attr.yr.getD 0)).sum) /
        (s.kids.toList.length : K)))

/-- Check that every internal node's `yr` is the arithmetic mean of its
direct children's `yr`. -/
def meanYrCheck (t : Tree (LAttr K)) : Bool :=
  allSubB meanYrNode t

/-- Per-node check that the `yr` attribute equals `v`. -/
def yrIs (v : Option K) (s : Tree (LAttr K)) : Bool :=
  decide (s.attr.yr = v)

mutual
/-- Erase the rectangular-layout attributes (`xr`, `yr`) and the
orchestrator's rendering aids, keeping everything else. -/
def eraseRectT : Tree (LAttr K) → Tree (LAttr K)
  | .node a cs =>
    .node { a with xr := none, yr := none,
                   highestchildyr := none, lowestchildyr := none }
      (eraseRectF cs)
termination_by structural t => t
/-- Forest version of `eraseRectT`. -/
def eraseRectF : Forest (LAttr K) → Forest (LAttr K)
  | .nil => .nil
  | .cons t ts => .cons (eraseRectT t) (eraseRectF ts)
termination_by structural l => l
end

end LayoutDefs

section ConcreteLayoutTrees

/-- Layout state of a two-node tree (root and one leaf child) in which
every branch length is 0 and no coordinates have been computed yet. -/
def tAllZeroL : Tree (LAttr ℚ) :=
  .node { length := 0, leafcount := 1 }
    (.cons (.node { length := 0, leafcount := 1 } .nil) .nil)

/-- Layout state of the strict chain A→B→C with branch lengths 1
(root A, child B, grandchild C); no coordinates computed yet. -/
def tChainL : Tree (LAttr ℚ) :=
  .node { length := 1, leafcount := 1 }
    (.cons (.node { length := 1, leafcount := 1 }
      (.cons (.node { length := 1, leafcount := 1 } .nil) .nil)) .nil)

/-- Layout state of the strict chain A→B→C whose only positive branch
length is the root's (A has length 5, B and C have length 0); no
coordinates computed yet. -/
def tChainRootL : Tree (LAttr ℚ) :=
  .node { length := 5, leafcount := 1 }
    (.cons (.node { length := 0, leafcount := 1 }
      (.cons (.node { length := 0, leafcount := 1 } .nil) .nil)) .nil)

end ConcreteLayoutTrees

section UnrootedDefs

variable {K : Type} [LinearOrderedField K]

/-- Per-direction fitting scale of the unrooted layout's orientation
search (`tree.py`, lines 345-354): `width_min` starts at 0 and is replaced
by `width / x_diff` only when `x_diff != 0` (likewise for the height), the
two are combined with `min`, and a 0.95 margin is applied. -/
def dirScale (width height maxX minX maxY minY : K) : K :=
  let xDiff := maxX - minX
  let widthMin : K := if xDiff ≠ 0 then width / xDiff else 0
  let yDiff := maxY - minY
  let heightMin : K := if yDiff ≠ 0 then height / yDiff else 0
  min widthMin heightMin * (95 / 100)

/-- Modelled from the spec: the fitting scale described in §4.3 —
`min(width / x_span, height / y_span)` where a zero span contributes *no*
constraint (an effectively infinite allowed scale on that axis, `none`
here), then the 0.95 margin.  `none` overall means no axis constrained. -/
def dirScaleSpec (width height maxX minX maxY minY : K) : Option K :=
  let xr : Option K :=
    if maxX - minX = 0 then none else some (width / (maxX - minX))
  let yr : Option K :=
    if maxY - minY = 0 then none else some (height / (maxY - minY))
  match xr, yr with
  | none, none => none
  | some a, none => some (a * (95 / 100))
  | none, some b => some (b * (95 / 100))
  | some a, some b => some (min a b * (95 / 100))

/-- Fold one endpoint into the running bounding box
(`max_x, min_x, max_y, min_y`); `none` is the untouched `±inf` start. -/
def bboxUpd : Option (K × K × K × K) → K → K → Option (K × K × K × K)
  | none, x, y => some (x, x, y, y)
  | some (mx, nx, my, ny), x, y =>
    some (max mx x, min nx x, max my y, min ny y)

mutual
/-- One non-root node of `update_unrooted_coords` (`tree.py`, lines
411-436): the node's start point is its parent's endpoint, its angle is
computed by `updateUCF` below, its endpoint adds
`length * s * (sin angle, cos angle)`, and the bounding box is updated
with the endpoint. -/
def updateUCT (sine cosine : K → K) (s da x1 y1 ang : K) :
    Tree (LAttr K) → Option (K × K × K × K) →
      Tree (LAttr K) × Option (K × K × K × K)
  | .node a cs, bb =>
    let x2 := x1 + a.length * s * sine ang
    let y2 := y1 + a.length * s * cosine ang
    let bb2 := bboxUpd bb x2 y2
    let p := updateUCF sine cosine s da x2 y2 ang (a.leafcount : K) 0 cs bb2
    (.node { a with x1 := some x1, y1 := some y1, x2 := some x2,
                    y2 := some y2, angle := some ang } p.1, p.2)
termination_by structural t => t
/-- The children of one node in `update_unrooted_coords`: each child's
angle starts from the parent's angle minus half the parent's angular width
(`parent.leafcount * da / 2`), accumulates the full width of every
preceding sibling (`acc` counts their leafcounts), and adds half the
child's own width — the `for sib in node.parent.children` loop of the
code. -/
def updateUCF (sine cosine : K → K) (s da px py pang plc acc : K) :
    Forest (LAttr K) → Option (K × K × K × K) →
      Forest (LAttr K) × Option (K × K × K × K)
  | .nil, bb => (.nil, bb)
  | .cons t ts, bb =>
    let childA := pang - plc * da / 2 + acc * da +
      (t.attr.leafcount : K) * da / 2
    let q := updateUCT sine cosine s da px py childA t bb
    let r := updateUCF sine cosine s da px py pang plc
      (acc + (t.attr.leafcount : K) * da) ts q.2
    (.cons q.1 r.1, r.2)
termination_by structural l => l
end

/-- Embedding of `Tree.update_unrooted_coords` (`tree.py`, lines
364-438).  The root's start point is the translation `(x1, y1)`, its
endpoint adds `length * s * (sin a, cos a)`, and the loop (a reversed
postorder, i.e. parents before children) handles every other node; the
returned bounding box covers only non-root endpoints and is `none` when
there are none (the Python code leaves `±inf` in that case, which can
only happen for a single-node tree — excluded upstream by
`from_tree`). -/
def updateUnrootedCoords (sine cosine : K → K) (s x1 y1 a da : K)
    (t : Tree (LAttr K)) : Tree (LAttr K) × Option (K × K × K × K) :=
  match t with
  | .node a0 cs =>
    let x2 := x1 + a0.length * s * sine a
    let y2 := y1 + a0.length * s * cosine a
    let p := updateUCF sine cosine s da x2 y2 a (a0.leafcount : K) 0 cs none
    (.node { a0 with x1 := some x1, y1 := some y1, x2 := some x2,
                     y2 := some y2, angle := some a } p.1, p.2)

/-- One candidate direction of the orientation search (`tree.py`, lines
339-359): run the coordinate pass at trial scale 1, fit the bounding box,
and keep the direction when `scale >= best_scale` (together with the
translation that centers the box on the canvas).  The state carries the
(mutated 60 times) tree, the best scale so far, and the pending
`best_args`; `none` best args model Python's unassigned `best_args`.
When the bounding box is untouched (single-node tree) Python computes
with infinities; we leave the best candidate unchanged in that
unreachable case. -/
def searchStep (sine cosine : K → K) (pi width height da : K)
    (st : Tree (LAttr K) × K × Option (K × K × K × K)) (i : ℕ) :
    Tree (LAttr K) × K × Option (K × K × K × K) :=
  let direction := (i : K) / 60 * pi
  let q := updateUnrootedCoords sine cosine 1 0 0 direction da st.1
  match q.2 with
  | none => (q.1, st.2.1, st.2.2)
  | some (mx, nx, my, ny) =>
    let scale := dirScale width height mx nx my ny
    if scale ≥ st.2.1 then
      (q.1, scale,
        some (scale, width / 2 - ((mx + nx) / 2) * scale,
              height / 2 - ((my + ny) / 2) * scale, direction))
    else (q.1, st.2.1, st.2.2)

/-- Embedding of `Tree.layout_unrooted` (`tree.py`, lines 308-362): 60
candidate directions over `[0, π)`, then one final coordinate pass with
the winning arguments.  If no direction ever satisfied
`scale >= best_scale` (possible only for a negative canvas), Python
raises `NameError` on the unassigned `best_args`. -/
def layoutUnrooted (sine cosine : K → K) (pi : K) (width height : K)
    (t : Tree (LAttr K)) :
    Tree (LAttr K) × Except LayoutError (String × String) :=
  match (List.range 60).foldl
      (searchStep sine cosine pi width height
        (2 * pi / (t.attr.leafcount : K)))
      (t, 0, none) with
  | (tcur, _, some (bs, mx, my, dir)) =>
    ((updateUnrootedCoords sine cosine bs mx my dir
        (2 * pi / (t.attr.leafcount : K)) tcur).1,
      .ok ("Unrooted", "2"))
  | (tcur, _, none) => (tcur, .error .unsetBestArgs)

/-- Coordinate selector for a layout suffix, the embedding of the
`getattr`/`setattr` pairs of `alter_coordinates_relative_to_root`. -/
structure CoordSel (K : Type) where
  getX : LAttr K → Option K
  setX : LAttr K → Option K → LAttr K
  getY : LAttr K → Option K
  setY : LAttr K → Option K → LAttr K

/-- The attribute pairs behind the runtime-built names `x2`/`y2` and
`xr`/`yr`.  Any other suffix would make Python's `getattr` raise; the two
layouts only ever return `"2"` and `"r"`. -/
def selForSuffix (suffix : String) : CoordSel K :=
  if suffix = "2" then
    ⟨fun a => a.x2, fun a v => { a with x2 := v },
     fun a => a.y2, fun a v => { a with y2 := v }⟩
  else if suffix = "r" then
    ⟨fun a => a.xr, fun a v => { a with xr := v },
     fun a => a.yr, fun a v => { a with yr := v }⟩
  else
    ⟨fun _ => none, fun a _ => a, fun _ => none, fun a _ => a⟩

mutual
/-- Subtract the root's coordinates from every node's selected
coordinate pair. -/
def centerT (sel : CoordSel K) (cx cy : K) : Tree (LAttr K) → Tree (LAttr K)
  | .node a cs =>
    let a2 := sel.setY (sel.setX a ((sel.getX a).map (fun v => v - cx)))
      ((sel.getY a).map (fun v => v - cy))
    .node a2 (centerF sel cx cy cs)
termination_by structural t => t
/-- Forest version of `centerT`. -/
def centerF (sel : CoordSel K) (cx cy : K) :
    Forest (LAttr K) → Forest (LAttr K)
  | .nil => .nil
  | .cons t ts => .cons (centerT sel cx cy t) (centerF sel cx cy ts)
termination_by structural l => l
end

/-- Embedding of `Tree.alter_coordinates_relative_to_root` (`tree.py`,
lines 157-187): read the root's coordinates under the suffix and subtract
them from every node's.  (Python's `getattr` would raise on an unset
attribute; after a layout has run the attributes are always set, and an
unset one is simply left `none` here.) -/
def alterCoordinatesRelativeToRoot (suffix : String)
    (t : Tree (LAttr K)) : Tree (LAttr K) :=
  let sel : CoordSel K := selForSuffix suffix
  let cx := (sel.getX t.attr).getD 0
  let cy := (sel.getY t.attr).getD 0
  centerT sel cx cy t

mutual
/-- The orchestrator's final pass (`tree.py`, lines 149-153): every
internal node receives `highestchildyr`/`lowestchildyr`, the max/min of
its direct children's (already scaled and centered) `yr`. -/
def hcyrT : Tree (LAttr K) → Tree (LAttr K)
  | .node a cs =>
    match cs with
    | .nil => .node a .nil
    | .cons c cs3 =>
      let ys := (Forest.cons c cs3).toList.map
        (fun s => s.attr.yr.getD 0)
      .node { a with highestchildyr := some ((listMax ys).getD 0),
                     lowestchildyr := some ((listMin ys).getD 0) }
        (hcyrF (.cons c cs3))
termination_by structural t => t
/-- Forest version of `hcyrT`. -/
def hcyrF : Forest (LAttr K) → Forest (LAttr K)
  | .nil => .nil
  | .cons t ts => .cons (hcyrT t) (hcyrF ts)
termination_by structural l => l
end

/-- Embedding of `Tree.coords` (`tree.py`, lines 101-155).  The layout
algorithms run in the order of `layout_algs =
(self.layout_unrooted, self.layout_rectangular)`; after each, that
layout's coordinates are re-centered on the root, and the *first* run
becomes the default layout.  An exception from either layout propagates
(with the node state mutated so far).  On success the result carries the
insertion-ordered name→suffix mapping and the default layout name. -/
def coords (sine cosine : K → K) (pi : K) (height width : K)
    (t : Tree (LAttr K)) :
    Tree (LAttr K) × Except LayoutError (List (String × String) × String) :=
  match layoutUnrooted sine cosine pi width height t with
  | (tmut, .error e) => (tmut, .error e)
  | (tmut, .ok nm1) =>
    match layoutRectangular width height
        (alterCoordinatesRelativeToRoot nm1.2 tmut) with
    | (tmut2, .error e) => (tmut2, .error e)
    | (tmut2, .ok nm2) =>
      (hcyrT (alterCoordinatesRelativeToRoot nm2.2 tmut2),
        .ok ([nm1, nm2], nm1.1))

end UnrootedDefs

section TrigInstances

/-- A degenerate trigonometric instantiation over `ℚ` (both functions
constantly 0) used to exercise the control flow of the search at concrete
inputs; the layout orchestration facts proved about `coords` hold for
every choice of `sin`/`cos`/`π`. -/
def zeroTrig : ℚ → ℚ := fun _ => 0

/-- Layout state of a two-node tree (root length 1, one leaf child of
length 1), no coordinates computed yet. -/
def tTwoL : Tree (LAttr ℚ) :=
  .node { length := 1, leafcount := 1 }
    (.cons (.node { length := 1, leafcount := 1 } .nil) .nil)

/-- The attribute record every node of `tTwoL` carries after one
trial pass of the search under `zeroTrig` (all trial coordinates are 0). -/
def aTwoFix : LAttr ℚ :=
  { length := 1, leafcount := 1, x1 := some 0, y1 := some 0,
    x2 := some 0, y2 := some 0, angle := some 0 }

/-- The fixed point of the orientation search's per-direction tree state
on `tTwoL` under `zeroTrig`. -/
def tTwoFix : Tree (LAttr ℚ) :=
  .node aTwoFix (.cons (.node aTwoFix .nil) .nil)

/-- Layout state over `ℝ` of a two-node tree (root length 1, one leaf
child of length 1), no coordinates computed yet; used with the real
`sin`/`cos` the Python code imports from numpy. -/
def tTwoR : Tree (LAttr ℝ) :=
  .node { length := 1, leafcount := 1 }
    (.cons (.node { length := 1, leafcount := 1 } .nil) .nil)

/-- The final node state after `coords zeroTrig zeroTrig 0 100 100
tTwoL`: unrooted coordinates centered at the root (`x2 = y2 = 0`),
rectangular coordinates scaled to the canvas and centered (root at 0,
leaf at `xr = 100`), and the root's vertical-bar extents. -/
def tTwoDone : Tree (LAttr ℚ) :=
  .node
    { length := 1, leafcount := 1, x1 := some 50, y1 := some 50,
      x2 := some 0, y2 := some 0, angle := some 0, xr := some 0,
      yr := some 0, highestchildyr := some 0, lowestchildyr := some 0 }
    (.cons
      (.node
        { length := 1, leafcount := 1, x1 := some 50, y1 := some 50,
          x2 := some 0, y2 := some 0, angle := some 0, xr := some 100,
          yr := some 0 }
        .nil)
      .nil)

end TrigInstances

section MaxLemmas

variable {β : Type} [LinearOrder β]

theorem foldl_max_out (l : List β) (x a : β) :
    l.foldl max (max x a) = max x (l.foldl max a) := by
  induction l generalizing a with
  | nil => rfl
  | cons b l ih =>
    simp only [List.foldl_cons]
    rw [max_assoc, ih]

theorem foldl_max_congr {l l' : List β} (h : listMax l = listMax l') (x : β) :
    l.foldl max x = l'.foldl max x := by
  cases l with
  | nil =>
    cases l' with
    | nil => rfl
    | cons y ys => simp [listMax] at h
  | cons y ys =>
    cases l' with
    | nil => simp [listMax] at h
    | cons z zs =>
      simp only [listMax, Option.some.injEq] at h
      rw [List.foldl_cons, List.foldl_cons, foldl_max_out, foldl_max_out, h]

theorem listMax_append_left {l1 : List β} (l2 : List β) {m1 : β}
    (h : listMax l1 = some m1) :
    listMax (l1 ++ l2) = some (l2.foldl max m1) := by
  cases l1 with
  | nil => simp [listMax] at h
  | cons x xs =>
    simp only [listMax, Option.some.injEq] at h
    simp only [List.cons_append, listMax, List.foldl_append, h]

end MaxLemmas

section MaxAddLemmas

variable {K : Type} [LinearOrderedField K]

theorem foldl_max_add (l : List K) (x c : K) :
    (l.map (fun d => d + c)).foldl max (x + c) = l.foldl max x + c := by
  induction l generalizing x with
  | nil => rfl
  | cons a l ih =>
    simp only [List.map_cons, List.foldl_cons]
    rw [max_add_add_right, ih]

theorem listMax_map_add (l : List K) (c : K) :
    listMax (l.map (fun d => d + c)) = (listMax l).map (fun m => m + c) := by
  cases l with
  | nil => rfl
  | cons x xs =>
    simp only [List.map_cons, listMax]
    rw [foldl_max_add]
    simp

end MaxAddLemmas

section GeometryLemmas

variable {K : Type} [LinearOrderedField K]

mutual
/-- The `height` computed by `update_geometry` is the maximum cumulative
length from the node (inclusive) down to any of its leaves. -/
theorem geomHeightT (u : Bool) (dp : Option K) :
    ∀ t : Tree (Option K),
      listMax (leafDists (updateGeometry u dp t)) =
        some ((updateGeometry u dp t).attr.height)
  | .node l cs => by
    have hf := geomHeightF u dp cs
    simp only [updateGeometry]
    cases h2 : updateGeometryF u dp cs with
    | nil => simp [leafDists, listMax, Tree.attr]
    | cons c cs3 =>
      rw [h2] at hf
      simp only [leafDists, Tree.attr]
      rw [listMax_map_add, hf]
      simp [listMax, Forest.toList, Tree.attr]
termination_by structural t => t
/-- Forest version of `geomHeightT`: the leaf distances of an updated
forest have the same maximum as its roots' heights. -/
theorem geomHeightF (u : Bool) (dp : Option K) :
    ∀ cs : Forest (Option K),
      listMax (leafDistsF (updateGeometryF u dp cs)) =
        listMax ((updateGeometryF u dp cs).toList.map
          (fun s => s.attr.height))
  | .nil => by simp [updateGeometryF, leafDistsF, Forest.toList]
  | .cons t ts => by
    have ht := geomHeightT u dp t
    have hf := geomHeightF u dp ts
    simp only [updateGeometryF, leafDistsF, Forest.toList, List.map_cons]
    rw [listMax_append_left _ ht]
    simp only [listMax, Option.some.injEq]
    exact foldl_max_congr hf _
termination_by structural l => l
end

mutual
/-- Every subtree of an updated tree satisfies the leaf-path
characterization of `height`. -/
theorem heightPathT (u : Bool) (dp : Option K) :
    ∀ t : Tree (Option K), heightPathCheck (updateGeometry u dp t) = true
  | .node l cs => by
    have hg := geomHeightT u dp (.node l cs)
    have hf := heightPathF u dp cs
    simp only [heightPathCheck] at *
    simp only [updateGeometry] at *
    cases h2 : updateGeometryF u dp cs with
    | nil => simp_all [allSubB, allSubF]
    | cons c cs3 => simp_all [allSubB]
termination_by structural t => t
/-- Forest version of `heightPathT`. -/
theorem heightPathF (u : Bool) (dp : Option K) :
    ∀ cs : Forest (Option K),
      allSubF (fun s => decide (listMax (leafDists s) = some s.attr.height))
        (updateGeometryF u dp cs) = true
  | .nil => by simp [updateGeometryF, allSubF]
  | .cons t ts => by
    have ht := heightPathT u dp t
    have hf := heightPathF u dp ts
    simp only [heightPathCheck] at ht
    simp [updateGeometryF, allSubF, ht, hf]
termination_by structural l => l
end

mutual
/-- Every subtree of an updated tree satisfies the code's height
recurrence `height = max(child heights) + own length` (leaves:
`height = length`). -/
theorem heightCodeT (u : Bool) (dp : Option K) :
    ∀ t : Tree (Option K), heightCodeCheck (updateGeometry u dp t) = true
  | .node l cs => by
    have hf := heightCodeF u dp cs
    simp only [heightCodeCheck] at *
    simp only [updateGeometry] at *
    cases h2 : updateGeometryF u dp cs with
    | nil =>
      simp_all [allSubB, Tree.kids, Tree.attr, Forest.toList]
    | cons c cs3 =>
      simp_all [allSubB, Tree.kids, Tree.attr, Forest.toList,
        List.map_map, Function.comp_def]
termination_by structural t => t
/-- Forest version of `heightCodeT`. -/
theorem heightCodeF (u : Bool) (dp : Option K) :
    ∀ cs : Forest (Option K),
      allSubF (fun s =>
        match s.kids.toList.map Tree.attr with
        | [] => decide (s.attr.height = s.attr.length)
        | k :: ks =>
          decide (s.attr.height = (ks.map GAttr.height).foldl max k.height
                    + s.attr.length)) (updateGeometryF u dp cs) = true
  | .nil => by simp [updateGeometryF, allSubF]
  | .cons t ts => by
    have ht := heightCodeT u dp t
    have hf := heightCodeF u dp ts
    simp only [heightCodeCheck] at ht
    simp [updateGeometryF, allSubF, ht, hf]
termination_by structural l => l
end

mutual
/-- Every node of an updated tree has `depth = (dp or 0) + own length`:
the `depth` argument is never threaded through the loop. -/
theorem depthCodeT (u : Bool) (dp : Option K) :
    ∀ t : Tree (Option K),
      depthCodeCheck (dp.getD 0) (updateGeometry u dp t) = true
  | .node l cs => by
    have hf := depthCodeF u dp cs
    simp only [depthCodeCheck] at *
    simp only [updateGeometry] at *
    cases h2 : updateGeometryF u dp cs with
    | nil => simp_all [allSubB, allSubF, Tree.attr]
    | cons c cs3 => simp_all [allSubB, Tree.attr]
termination_by structural t => t
/-- Forest version of `depthCodeT`. -/
theorem depthCodeF (u : Bool) (dp : Option K) :
    ∀ cs : Forest (Option K),
      allSubF (fun s => decide (s.attr.depth = dp.getD 0 + s.attr.length))
        (updateGeometryF u dp cs) = true
  | .nil => by simp [updateGeometryF, allSubF]
  | .cons t ts => by
    have ht := depthCodeT u dp t
    have hf := depthCodeF u dp ts
    simp only [depthCodeCheck] at ht
    simp [updateGeometryF, allSubF, ht, hf]
termination_by structural l => l
end

end GeometryLemmas

section RectLemmas

variable {K : Type} [LinearOrderedField K]

mutual
/-- The first rectangular pass only writes `yr`. -/
theorem eraseRect_assignYrT (st : K × K) :
    ∀ t : Tree (LAttr K), eraseRectT ((assignYrT st t).1) = eraseRectT t
  | .node a cs => by
    have hf := eraseRect_assignYrF st cs
    cases cs <;> simp [assignYrT, eraseRectT, hf]
termination_by structural t => t
/-- Forest version of `eraseRect_assignYrT`. -/
theorem eraseRect_assignYrF (st : K × K) :
    ∀ cs : Forest (LAttr K),
      eraseRectF ((assignYrF st cs).1) = eraseRectF cs
  | .nil => by simp [assignYrF, eraseRectF]
  | .cons t ts => by
    have ht := eraseRect_assignYrT st t
    have hf := eraseRect_assignYrF ((assignYrT st t).2) ts
    simp [assignYrF, eraseRectF, ht, hf]
termination_by structural l => l
end

mutual
/-- The second rectangular pass only writes `xr`. -/
theorem eraseRect_assignXrT (px mw : K) :
    ∀ t : Tree (LAttr K), eraseRectT ((assignXrT px mw t).1) = eraseRectT t
  | .node a cs => by
    have hf := eraseRect_assignXrF (px + a.length)
      (if px + a.length > mw then px + a.length else mw) cs
    simp [assignXrT, eraseRectT, hf]
termination_by structural t => t
/-- Forest version of `eraseRect_assignXrT`. -/
theorem eraseRect_assignXrF (px mw : K) :
    ∀ cs : Forest (LAttr K),
      eraseRectF ((assignXrF px mw cs).1) = eraseRectF cs
  | .nil => by simp [assignXrF, eraseRectF]
  | .cons t ts => by
    have ht := eraseRect_assignXrT px mw t
    have hf := eraseRect_assignXrF px ((assignXrT px mw t).2) ts
    simp [assignXrF, eraseRectF, ht, hf]
termination_by structural l => l
end

mutual
/-- The scaling pass only rewrites `xr` and `yr`. -/
theorem eraseRect_scaleRectT (xs ys : K) :
    ∀ t : Tree (LAttr K), eraseRectT (scaleRectT xs ys t) = eraseRectT t
  | .node a cs => by
    have hf := eraseRect_scaleRectF xs ys cs
    simp [scaleRectT, eraseRectT, hf]
termination_by structural t => t
/-- Forest version of `eraseRect_scaleRectT`. -/
theorem eraseRect_scaleRectF (xs ys : K) :
    ∀ cs : Forest (LAttr K),
      eraseRectF (scaleRectF xs ys cs) = eraseRectF cs
  | .nil => by simp [scaleRectF, eraseRectF]
  | .cons t ts => by
    have ht := eraseRect_scaleRectT xs ys t
    have hf := eraseRect_scaleRectF xs ys ts
    simp [scaleRectF, eraseRectF, ht, hf]
termination_by structural l => l
end

/-- The whole rectangular layout, including a rejecting run, leaves every
attribute other than `xr`/`yr` (and the orchestrator aids) unchanged. -/
theorem eraseRect_layoutRectangular (w h : K) (t : Tree (LAttr K)) :
    eraseRectT ((layoutRectangular w h t).1) = eraseRectT t := by
  cases t with
  | node a0 cs0 =>
    obtain ⟨a, cs, hp⟩ : ∃ a cs,
        (assignYrT ((0 : K), (0 : K)) (Tree.node a0 cs0)).1 = Tree.node a cs := by
      cases hq : (assignYrT ((0 : K), (0 : K)) (Tree.node a0 cs0)).1 with
      | node x y => exact ⟨x, y, rfl⟩
    have h1 : eraseRectT (Tree.node a cs) = eraseRectT (Tree.node a0 cs0) := by
      rw [← hp, eraseRect_assignYrT]
    have h2 : eraseRectT (Tree.node { a with xr := some 0 }
          ((assignXrF 0 0 cs).1)) = eraseRectT (Tree.node a cs) := by
      simp [eraseRectT, eraseRect_assignXrF]
    simp only [layoutRectangular, hp]
    rcases eq_or_ne ((assignXrF (0 : K) 0 cs).2) 0 with hw | hw
    · simp only [if_pos hw]
      rw [h2, h1]
    · simp only [if_neg hw]
      rw [eraseRect_scaleRectT, h2, h1]

end RectLemmas

section RootLengthLemmas

variable {K : Type} [LinearOrderedField K]

/-- The first rectangular pass never reads any node's length, so it
commutes with replacing the root's length. -/
theorem assignYrT_setRootLength (st : K × K) (l : K) (t : Tree (LAttr K)) :
    assignYrT st (setRootLength l t) =
      (setRootLength l (assignYrT st t).1, (assignYrT st t).2) := by
  cases t with
  | node a cs => cases cs <;> simp [assignYrT, setRootLength]

/-- The scaling pass acts per node, so it commutes with replacing the
root's length. -/
theorem scaleRectT_setRootLength (xs ys l : K) (t : Tree (LAttr K)) :
    scaleRectT xs ys (setRootLength l t) =
      setRootLength l (scaleRectT xs ys t) := by
  cases t with
  | node a cs => simp [scaleRectT, setRootLength]

end RootLengthLemmas

section YrPassLemmas

variable {K : Type} [LinearOrderedField K]

mutual
/-- In the first rectangular pass started with counter state `st`, the
tips read in postorder receive the consecutive values
`st.1, st.1 + 1, …`, and the counter advances by the number of tips. -/
theorem tipsYr_assignYrT (st : K × K) :
    ∀ t : Tree (LAttr K),
      tipsYrT ((assignYrT st t).1) =
        (List.range (countTipsT t)).map (fun n : ℕ => some (st.1 + (n : K))) ∧
      (assignYrT st t).2.1 = st.1 + (countTipsT t : K)
  | .node a cs => by
    have hf := tipsYr_assignYrF st cs
    cases cs with
    | nil =>
      simp [assignYrT, assignYrF, tipsYrT, countTipsT, List.range_succ]
    | cons c cs3 =>
      obtain ⟨q1, r1, hq⟩ : ∃ q1 r1,
          (assignYrF st (.cons c cs3)).1 = Forest.cons q1 r1 := by
        simp only [assignYrF]
        exact ⟨_, _, rfl⟩
      rw [hq] at hf
      simp [assignYrT, tipsYrT, countTipsT, hq, hf.1, hf.2]
termination_by structural t => t
/-- Forest version of `tipsYr_assignYrT`. -/
theorem tipsYr_assignYrF (st : K × K) :
    ∀ cs : Forest (LAttr K),
      tipsYrF ((assignYrF st cs).1) =
        (List.range (countTipsF cs)).map (fun n : ℕ => some (st.1 + (n : K))) ∧
      (assignYrF st cs).2.1 = st.1 + (countTipsF cs : K)
  | .nil => by simp [assignYrF, tipsYrF, countTipsF]
  | .cons t ts => by
    have ht := tipsYr_assignYrT st t
    have hf := tipsYr_assignYrF ((assignYrT st t).2) ts
    simp only [assignYrF, tipsYrF, countTipsF]
    refine ⟨?_, ?_⟩
    · rw [ht.1, hf.1, ht.2]
      simp [List.range_add, List.map_map, Function.comp_def, add_assoc,
        Nat.cast_add]
    · rw [hf.2, ht.2]
      push_cast
      ring
termination_by structural l => l
end

mutual
/-- After the first rectangular pass, every internal node's `yr` is the
arithmetic mean of its direct children's `yr`. -/
theorem meanYr_assignYrT (st : K × K) :
    ∀ t : Tree (LAttr K), meanYrCheck ((assignYrT st t).1) = true
  | .node a cs => by
    have hf := meanYr_assignYrF st cs
    cases cs with
    | nil =>
      simp [assignYrT, assignYrF, meanYrCheck, allSubB, allSubF,
        meanYrNode, Tree.kids]
    | cons c cs3 =>
      obtain ⟨q1, r1, hq⟩ : ∃ q1 r1,
          (assignYrF st (.cons c cs3)).1 = Forest.cons q1 r1 := by
        simp only [assignYrF]
        exact ⟨_, _, rfl⟩
      rw [hq] at hf
      simp [assignYrT, meanYrCheck, allSubB, meanYrNode, Tree.kids,
        Tree.attr, hq, hf]
termination_by structural t => t
/-- Forest version of `meanYr_assignYrT`. -/
theorem meanYr_assignYrF (st : K × K) :
    ∀ cs : Forest (LAttr K),
      allSubF meanYrNode ((assignYrF st cs).1) = true
  | .nil => by simp [assignYrF, allSubF]
  | .cons t ts => by
    have ht := meanYr_assignYrT st t
    have hf := meanYr_assignYrF ((assignYrT st t).2) ts
    simp only [meanYrCheck] at ht
    simp [assignYrF, allSubF, ht, hf]
termination_by structural l => l
end

end YrPassLemmas

section MaxWidthLemmas

variable {K : Type} [LinearOrderedField K]

mutual
/-- The running `max_width` threaded by the second rectangular pass is
exactly the maximum accumulated x over the visited nodes. -/
theorem assignXrT_maxw (px mw : K) :
    ∀ t : Tree (LAttr K), (assignXrT px mw t).2 = maxCumXT px mw t
  | .node a cs => by
    have hmax : (if px + a.length > mw then px + a.length else mw) =
        max mw (px + a.length) := by
      rcases le_or_lt (px + a.length) mw with h | h
      · rw [if_neg (not_lt.mpr h), max_eq_left h]
      · rw [if_pos h, max_eq_right h.le]
    have hf := assignXrF_maxw (px + a.length)
      (max mw (px + a.length)) cs
    simp only [assignXrT, maxCumXT, hmax, hf]
termination_by structural t => t
/-- Forest version of `assignXrT_maxw`. -/
theorem assignXrF_maxw (px mw : K) :
    ∀ cs : Forest (LAttr K), (assignXrF px mw cs).2 = maxCumXF px mw cs
  | .nil => by simp [assignXrF, maxCumXF]
  | .cons t ts => by
    have ht := assignXrT_maxw px mw t
    have hf := assignXrF_maxw px (maxCumXT px mw t) ts
    simp only [assignXrF, maxCumXF, ht, hf]
termination_by structural l => l
end

mutual
/-- `maxCumXT` only reads lengths and shape, which the first rectangular
pass preserves. -/
theorem maxCumXT_assignYr (st : K × K) (acc m : K) :
    ∀ t : Tree (LAttr K),
      maxCumXT acc m ((assignYrT st t).1) = maxCumXT acc m t
  | .node a cs => by
    have hf := maxCumXF_assignYr st (acc + a.length) (max m (acc + a.length)) cs
    cases cs with
    | nil => simp [assignYrT, assignYrF, maxCumXT, maxCumXF]
    | cons c cs3 =>
      obtain ⟨q1, r1, hq⟩ : ∃ q1 r1,
          (assignYrF st (.cons c cs3)).1 = Forest.cons q1 r1 := by
        simp only [assignYrF]
        exact ⟨_, _, rfl⟩
      rw [hq] at hf
      simp [assignYrT, maxCumXT, hq, hf]
termination_by structural t => t
/-- Forest version of `maxCumXT_assignYr`. -/
theorem maxCumXF_assignYr (st : K × K) (acc m : K) :
    ∀ cs : Forest (LAttr K),
      maxCumXF acc m ((assignYrF st cs).1) = maxCumXF acc m cs
  | .nil => by simp [assignYrF]
  | .cons t ts => by
    have ht := maxCumXT_assignYr st acc m t
    have hf := maxCumXF_assignYr ((assignYrT st t).2) acc
      (maxCumXT acc m t) ts
    simp only [assignYrF, maxCumXF, ht, hf]
termination_by structural l => l
end

end MaxWidthLemmas

section ChainLemmas

variable {K : Type} [LinearOrderedField K]

/-- Helper: read off the root's property from `allSubB`. -/
theorem allSubB_root {α : Type} {p : Tree α → Bool} {t : Tree α}
    (h : allSubB p t = true) : p t = true := by
  cases t with
  | node a cs =>
    simp only [allSubB, Bool.and_eq_true] at h
    exact h.1

/-- Helper: read off the children's property from `allSubB`. -/
theorem allSubB_kids {α : Type} {p : Tree α → Bool} {t : Tree α}
    (h : allSubB p t = true) : allSubF p t.kids = true := by
  cases t with
  | node a cs =>
    simp only [allSubB, Bool.and_eq_true] at h
    simpa [Tree.kids] using h.2

/-- Every tree is the node of its attribute and its children. -/
theorem tree_eta {α : Type} (t : Tree α) : t = .node t.attr t.kids := by
  cases t with
  | node a cs => rfl

/-- The children of the first-pass output are the first-pass outputs of
the children. -/
theorem assignYrT_kids (st : K × K) (a0 : LAttr K) (cs0 : Forest (LAttr K)) :
    ((assignYrT st (.node a0 cs0)).1).kids = (assignYrF st cs0).1 := by
  cases cs0 <;> simp [assignYrT, assignYrF, Tree.kids]

theorem yrIs_node (v : Option K) (a : LAttr K) (cs : Forest (LAttr K)) :
    yrIs v (Tree.node a cs) = decide (a.yr = v) := rfl

/-- On a strict chain, the first rectangular pass assigns `yr = st.1` to
every node: the unique tip gets the counter, and every internal mean over
the single child propagates it up unchanged. -/
theorem chain_assignYr (st : K × K) :
    ∀ t : Tree (LAttr K), isChainT t = true →
      allSubB (yrIs (some st.1)) ((assignYrT st t).1) = true
  | .node a cs => by
    intro hc
    cases cs with
    | nil => simp [assignYrT, assignYrF, allSubB, allSubF, yrIs_node]
    | cons c cs3 =>
      cases cs3 with
      | cons c2 cs4 => simp [isChainT] at hc
      | nil =>
        simp only [isChainT] at hc
        have hrec := chain_assignYr st c hc
        have hroot := allSubB_root hrec
        obtain ⟨b, ds, hb⟩ : ∃ b ds, (assignYrT st c).1 = Tree.node b ds := by
          cases hq : (assignYrT st c).1 with
          | node x y => exact ⟨x, y, rfl⟩
        rw [hb] at hrec hroot
        rw [yrIs_node, decide_eq_true_eq] at hroot
        rw [allSubB, Bool.and_eq_true] at hrec
        simp [assignYrT, assignYrF, allSubB, allSubF, yrIs_node, hb, hrec.1,
          hrec.2, Forest.toList, Tree.attr, hroot]
termination_by structural t => t

mutual
/-- The second rectangular pass leaves every `yr` untouched, so a
per-node `yr` property survives it. -/
theorem yrIs_assignXrT (v : Option K) (px mw : K) :
    ∀ t : Tree (LAttr K),
      allSubB (yrIs v) t = true →
      allSubB (yrIs v) ((assignXrT px mw t).1) = true
  | .node a cs => by
    intro h
    rw [allSubB, Bool.and_eq_true] at h
    have hf := yrIs_assignXrF v (px + a.length)
      (if px + a.length > mw then px + a.length else mw) cs h.2
    rw [yrIs_node, decide_eq_true_eq] at h
    simp [assignXrT, allSubB, yrIs_node, h.1, hf]
termination_by structural t => t
/-- Forest version of `yrIs_assignXrT`. -/
theorem yrIs_assignXrF (v : Option K) (px mw : K) :
    ∀ cs : Forest (LAttr K),
      allSubF (yrIs v) cs = true →
      allSubF (yrIs v) ((assignXrF px mw cs).1) = true
  | .nil => by intro h; simp [assignXrF, allSubF]
  | .cons t ts => by
    intro h
    rw [allSubF, Bool.and_eq_true] at h
    have ht := yrIs_assignXrT v px mw t h.1
    have hf := yrIs_assignXrF v px ((assignXrT px mw t).2) ts h.2
    simp [assignXrF, allSubF, ht, hf]
termination_by structural l => l
end

mutual
/-- The scaling pass maps `yr = some 0` to `yr = some 0`. -/
theorem zeroYr_scaleRectT (xs ys : K) :
    ∀ t : Tree (LAttr K),
      allSubB (yrIs (some (0 : K))) t = true →
      allSubB (yrIs (some (0 : K))) (scaleRectT xs ys t) = true
  | .node a cs => by
    intro h
    rw [allSubB, Bool.and_eq_true] at h
    have hf := zeroYr_scaleRectF xs ys cs h.2
    have h1 := h.1
    rw [yrIs_node, decide_eq_true_eq] at h1
    simp [scaleRectT, allSubB, yrIs_node, h1, hf]
termination_by structural t => t
/-- Forest version of `zeroYr_scaleRectT`. -/
theorem zeroYr_scaleRectF (xs ys : K) :
    ∀ cs : Forest (LAttr K),
      allSubF (yrIs (some (0 : K))) cs = true →
      allSubF (yrIs (some (0 : K))) (scaleRectF xs ys cs) = true
  | .nil => by intro h; simp [scaleRectF, allSubF]
  | .cons t ts => by
    intro h
    rw [allSubF, Bool.and_eq_true] at h
    have ht := zeroYr_scaleRectT xs ys t h.1
    have hf := zeroYr_scaleRectF xs ys ts h.2
    simp [scaleRectF, allSubF, ht, hf]
termination_by structural l => l
end

end ChainLemmas

section SearchFoldLemmas

/-- Folding a function over any list leaves a fixed point unchanged. -/
theorem foldl_fixed {β : Type} (f : β → ℕ → β) (st : β)
    (h : ∀ i, f st i = st) : ∀ l : List ℕ, l.foldl f st = st
  | [] => rfl
  | i :: l => by rw [List.foldl_cons, h, foldl_fixed f st h l]

/-- The first candidate direction on `tTwoL` under `zeroTrig` produces
the fixed search state. -/
theorem searchStep_first :
    searchStep zeroTrig zeroTrig 0 100 100 0 (tTwoL, 0, none) 0 =
      (tTwoFix, 0, some (0, 50, 50, 0)) := by
  norm_num [searchStep, updateUnrootedCoords, updateUCT, updateUCF,
    bboxUpd, dirScale, zeroTrig, tTwoL, tTwoFix, aTwoFix, Tree.attr]

/-- Every further candidate direction leaves the fixed search state
unchanged (all directions collapse to angle 0 when `pi = 0`). -/
theorem searchStep_fix (i : ℕ) :
    searchStep zeroTrig zeroTrig 0 100 100 0
      (tTwoFix, 0, some (0, 50, 50, 0)) i =
        (tTwoFix, 0, some (0, 50, 50, 0)) := by
  norm_num [searchStep, updateUnrootedCoords, updateUCT, updateUCF,
    bboxUpd, dirScale, zeroTrig, tTwoFix, aTwoFix, Tree.attr]

set_option maxRecDepth 10000 in
/-- The unrooted layout on the concrete two-node tree succeeds, with the
winning arguments `(scale 0, translation (50, 50), direction 0)`. -/
theorem layoutUnrooted_tTwo :
    layoutUnrooted zeroTrig zeroTrig 0 100 100 tTwoL =
      ((updateUnrootedCoords zeroTrig zeroTrig 0 50 50 0 0 tTwoFix).1,
        .ok ("Unrooted", "2")) := by
  have h60 : List.range 60 = 0 :: List.map Nat.succ (List.range 59) := by
    rw [show (60 : ℕ) = 59 + 1 from rfl, List.range_succ_eq_map]
  have hfold : (List.range 60).foldl
      (searchStep zeroTrig zeroTrig 0 100 100 0) (tTwoL, 0, none) =
        (tTwoFix, 0, some (0, 50, 50, 0)) := by
    rw [h60, List.foldl_cons, searchStep_first]
    exact foldl_fixed _ _ searchStep_fix _
  delta layoutUnrooted
  rw [show (2 : ℚ) * 0 / ((Tree.attr tTwoL).leafcount : ℚ) = 0 by
    norm_num]
  rw [hfold]

/-- Full orchestrator run on the concrete two-node tree: both layouts
succeed, and the resulting node state and outputs are as computed by
hand. -/
theorem coords_tTwo :
    coords zeroTrig zeroTrig 0 100 100 tTwoL =
      (tTwoDone, .ok ([("Unrooted", "2"), ("Rectangular", "r")],
        "Unrooted")) := by
  have hr2 : ("r" : String) ≠ "2" := by decide
  delta coords
  rw [layoutUnrooted_tTwo]
  norm_num [hr2, updateUnrootedCoords, updateUCT, updateUCF, bboxUpd, zeroTrig,
    tTwoFix, aTwoFix, alterCoordinatesRelativeToRoot, selForSuffix, centerT,
    centerF, Tree.attr, layoutRectangular, assignYrT, assignYrF, assignXrT,
    assignXrF, scaleRectT, scaleRectF, hcyrT, hcyrF, Tree.kids,
    Forest.toList, listMax, listMin, tTwoDone]

end SearchFoldLemmas

section OrchestratorLemmas

variable {K : Type} [LinearOrderedField K]

set_option maxRecDepth 10000 in
/-- A successful unrooted layout always reports the name/suffix pair
`("Unrooted", "2")`. -/
theorem layoutUnrooted_names (sine cosine : K → K) (pi w h : K)
    (t tm : Tree (LAttr K)) (nm : String × String)
    (hu : layoutUnrooted sine cosine pi w h t = (tm, .ok nm)) :
    nm = ("Unrooted", "2") := by
  delta layoutUnrooted at hu
  rcases hf : (List.range 60).foldl
      (searchStep sine cosine pi w h (2 * pi / (t.attr.leafcount : K)))
      (t, 0, none) with ⟨tc, b, args⟩
  rw [hf] at hu
  rcases args with _ | ⟨⟨bs, mx, my, dir⟩⟩
  · simp at hu
  · simp only [Prod.mk.injEq] at hu
    exact (Except.ok.inj hu.2).symm

set_option maxRecDepth 10000 in
/-- On a successful unrooted layout the root's unrooted coordinates have
been assigned. -/
theorem layoutUnrooted_ok_root (sine cosine : K → K) (pi w h : K)
    (t tm : Tree (LAttr K)) (nm : String × String)
    (hu : layoutUnrooted sine cosine pi w h t = (tm, .ok nm)) :
    (tm.attr.x2).isSome ∧ (tm.attr.y2).isSome := by
  delta layoutUnrooted at hu
  rcases hf : (List.range 60).foldl
      (searchStep sine cosine pi w h (2 * pi / (t.attr.leafcount : K)))
      (t, 0, none) with ⟨tc, b, args⟩
  rw [hf] at hu
  rcases args with _ | ⟨⟨bs, mx, my, dir⟩⟩
  · simp at hu
  · simp only [Prod.mk.injEq] at hu
    rw [← hu.1]
    cases tc with
    | node a cs => simp [updateUnrootedCoords, Tree.attr]

/-- A successful rectangular layout always reports the name/suffix pair
`("Rectangular", "r")`. -/
theorem layoutRectangular_names (w h : K) (t tm : Tree (LAttr K))
    (nm : String × String)
    (hr : layoutRectangular w h t = (tm, .ok nm)) :
    nm = ("Rectangular", "r") := by
  cases t with
  | node a0 cs0 =>
    simp only [layoutRectangular] at hr
    rw [tree_eta ((assignYrT ((0 : K), (0 : K)) (Tree.node a0 cs0)).1),
      assignYrT_kids] at hr
    dsimp only at hr
    rcases eq_or_ne
        ((assignXrF (0 : K) 0 ((assignYrF ((0 : K), (0 : K)) cs0).1)).2) 0
      with hz | hz
    · rw [if_pos hz] at hr
      simp at hr
    · rw [if_neg hz] at hr
      simp only [Prod.mk.injEq] at hr
      exact (Except.ok.inj hr.2).symm

/-- The root's `yr` is always assigned by the first rectangular pass. -/
theorem assignYr_root_yr_isSome (st : K × K) (t : Tree (LAttr K)) :
    ((((assignYrT st t).1).attr.yr)).isSome := by
  cases t with
  | node a cs => cases cs <;> simp [assignYrT, Tree.attr]

/-- On a successful rectangular layout the root's rectangular coordinates
have been assigned. -/
theorem layoutRectangular_ok_root (w h : K) (t tm : Tree (LAttr K))
    (nm : String × String)
    (hr : layoutRectangular w h t = (tm, .ok nm)) :
    (tm.attr.xr).isSome ∧ (tm.attr.yr).isSome := by
  cases t with
  | node a0 cs0 =>
    have hyr := assignYr_root_yr_isSome ((0 : K), (0 : K))
      (Tree.node a0 cs0)
    simp only [layoutRectangular] at hr
    rw [tree_eta ((assignYrT ((0 : K), (0 : K)) (Tree.node a0 cs0)).1),
      assignYrT_kids] at hr
    dsimp only at hr
    rcases eq_or_ne
        ((assignXrF (0 : K) 0 ((assignYrF ((0 : K), (0 : K)) cs0).1)).2) 0
      with hz | hz
    · rw [if_pos hz] at hr
      simp at hr
    · rw [if_neg hz] at hr
      simp only [Prod.mk.injEq] at hr
      rw [← hr.1]
      simp only [scaleRectT, Tree.attr]
      constructor
      · simp
      · simpa using hyr

/-- Root attribute record written by `update_unrooted_coords`: start
point is the translation, endpoint is the translation offset by
`length * s * (sin a, cos a)`. -/
theorem updateUC_root_attr (sine cosine : K → K) (s x1 y1 a da : K)
    (t : Tree (LAttr K)) :
    ((updateUnrootedCoords sine cosine s x1 y1 a da t).1).attr =
      { t.attr with
          x1 := some x1, y1 := some y1,
          x2 := some (x1 + t.attr.length * s * sine a),
          y2 := some (y1 + t.attr.length * s * cosine a),
          angle := some a } := by
  cases t with
  | node a0 cs => simp [updateUnrootedCoords, Tree.attr]

/-- Root attribute record after re-centering the unrooted suffix. -/
theorem center2_root_attr (t : Tree (LAttr K)) :
    (alterCoordinatesRelativeToRoot "2" t).attr =
      { t.attr with
          x2 := (t.attr.x2).map (fun v => v - (t.attr.x2).getD 0),
          y2 := (t.attr.y2).map (fun v => v - (t.attr.y2).getD 0) } := by
  cases t with
  | node a cs =>
    simp [alterCoordinatesRelativeToRoot, selForSuffix, centerT, Tree.attr]

/-- Root attribute record after re-centering the rectangular suffix. -/
theorem centerR_root_attr (t : Tree (LAttr K)) :
    (alterCoordinatesRelativeToRoot "r" t).attr =
      { t.attr with
          xr := (t.attr.xr).map (fun v => v - (t.attr.xr).getD 0),
          yr := (t.attr.yr).map (fun v => v - (t.attr.yr).getD 0) } := by
  have hr2 : ("r" : String) ≠ "2" := by decide
  cases t with
  | node a cs =>
    simp [alterCoordinatesRelativeToRoot, selForSuffix, centerT, Tree.attr,
      hr2]

omit [LinearOrderedField K] in
/-- Erasing the rectangular attributes keeps everything else. -/
theorem eraseRectT_attr (t : Tree (LAttr K)) :
    (eraseRectT t).attr =
      { t.attr with
          xr := none, yr := none, highestchildyr := none,
          lowestchildyr := none } := by
  cases t with
  | node a cs => simp [eraseRectT, Tree.attr]

/-- The rendering-aid pass touches neither layout's coordinates at the
root. -/
theorem hcyrT_attr_coords (t : Tree (LAttr K)) :
    (hcyrT t).attr.x2 = t.attr.x2 ∧ (hcyrT t).attr.y2 = t.attr.y2 ∧
    (hcyrT t).attr.xr = t.attr.xr ∧ (hcyrT t).attr.yr = t.attr.yr := by
  cases t with
  | node a cs => cases cs <;> simp [hcyrT, Tree.attr]

/-- The rectangular layout never changes the unrooted coordinates at the
root (projection of `eraseRect_layoutRectangular` to the root). -/
theorem layoutRectangular_root_unrooted (w h : K) (t : Tree (LAttr K)) :
    (((layoutRectangular w h t).1).attr.x2 = t.attr.x2) ∧
    (((layoutRectangular w h t).1).attr.y2 = t.attr.y2) := by
  have h1 := congrArg (fun s => (Tree.attr s).x2)
    (eraseRect_layoutRectangular w h t)
  have h2 := congrArg (fun s => (Tree.attr s).y2)
    (eraseRect_layoutRectangular w h t)
  simp only [eraseRectT_attr] at h1 h2
  exact ⟨h1, h2⟩

end OrchestratorLemmas

/-- C1: the specification states that `depth` accumulates down each
root-to-node path (`depth(node) = depth(parent) + length(node)`, with
`depth(root) = length(root)`).  The code does not do this: the postorder
loop in `update_geometry` assigns `node.depth = (depth or 0) + node.length`
with the method's `depth` argument (which `from_tree` leaves at `None`) —
it is never re-threaded down the tree, so every node's depth is its own
length.  First conjunct: on every tree, every node's depth is the constant
`depth or 0` plus its own length.  Remaining conjuncts: at the failing
input (root of length 1 with one leaf child of length 1, lengths used) the
child's depth is 1 where the specified recurrence demands
`depth(parent) + length(child) = 2`, so the specified depth property is
false of the computed attributes. -/
theorem C1_depth_not_cumulative :
    (∀ (K : Type) [LinearOrderedField K] (u : Bool) (dp : Option K)
        (t : Tree (Option K)),
      depthCodeCheck (dp.getD 0) (updateGeometry u dp t) = true) ∧
    updateGeometry true none tRoot1Leaf1 =
      .node { length := 1, depth := 1, height := 2, leafcount := 1 }
        (.cons (.node { length := 1, depth := 1, height := 1, leafcount := 1 }
          .nil) .nil) ∧
    depthClaimCheck (updateGeometry true none tRoot1Leaf1) = false := by
  refine ⟨fun K _ u dp t => depthCodeT u dp t, ?_, ?_⟩ <;>
    norm_num [updateGeometry, updateGeometryF, lengthDefault, tRoot1Leaf1,
      depthClaimCheck, allKidPairsT, allKidPairsF, Tree.attr, Forest.toList,
      Forest.isNil]

/-- C9, counterexample: the specification's height recurrence
`height(node) = max(height(child) + length(child))` fails on the code.  For
a root of length 1 with a single leaf child of length 2 the code computes
`height(root) = max(child heights) + length(root) = 2 + 1 = 3`, whereas the
claimed recurrence demands `height(child) + length(child) = 2 + 2 = 4`. -/
theorem C9_counterexample :
    (updateGeometry true none tRoot1Leaf2).attr.height = 3 ∧
    heightClaimCheck (updateGeometry true none tRoot1Leaf2) = false := by
  norm_num [updateGeometry, updateGeometryF, lengthDefault, tRoot1Leaf2,
    heightClaimCheck, allSubB, allSubF, Tree.attr, Tree.kids, Forest.toList,
    Forest.isNil]

/-- C9, amended: after `update_geometry`, every node satisfies
`height = max(height(child) for child in children) + length(node)`
(`height = length` at leaves); equivalently, every node's height is the
maximum cumulative length from that node (inclusive) down to any of its
descendant leaves. -/
theorem C9_height_recurrence (K : Type) [LinearOrderedField K] (u : Bool)
    (dp : Option K) (t : Tree (Option K)) :
    heightCodeCheck (updateGeometry u dp t) = true ∧
    heightPathCheck (updateGeometry u dp t) = true :=
  ⟨heightCodeT u dp t, heightPathT u dp t⟩

/-- C8: in the first pass of `layout_rectangular` (started, as in the
code, with `prev_y = 0`), the tips read in postorder carry exactly the
consecutive integers `0, 1, 2, …` (one increment per tip), and every
internal node's `yr` is the arithmetic mean of its direct children's
`yr`. -/
theorem C8_tips_consecutive_and_means (K : Type) [LinearOrderedField K]
    (t : Tree (LAttr K)) :
    tipsYrT ((assignYrT ((0 : K), 0) t).1) =
      (List.range (countTipsT t)).map (fun n : ℕ => some ((n : K))) ∧
    meanYrCheck ((assignYrT ((0 : K), 0) t).1) = true := by
  refine ⟨?_, meanYr_assignYrT _ t⟩
  have h := (tipsYr_assignYrT ((0 : K), 0) t).1
  simpa using h

/-- C6, counterexample: the strict chain A→B→C whose only positive branch
length is the root's (5, with 0 below) refutes "a strict single-chain tree
with some positive branch length does not raise": the x-accumulation never
reads the root's own length, so `max_width` stays 0 and the rectangular
layout raises. -/
theorem C6_counterexample :
    isChainT tChainRootL = true ∧
    2 ≤ tChainRootL.nodeCount ∧
    0 < tChainRootL.attr.length ∧
    (layoutRectangular (100 : ℚ) 100 tChainRootL).2 =
      .error .allZeroLengths := by
  norm_num [tChainRootL, isChainT, Tree.nodeCount, Forest.nodeCount,
    layoutRectangular, assignYrT, assignYrF, assignXrT, assignXrF,
    Tree.attr, Forest.toList]

/-- C6, amended: the rectangular layout raises if and only if the maximum
accumulated x over all nodes (the root contributing 0, so the root's own
length never counts) is 0; on any strict single chain every node's `yr`
ends up exactly 0; and any tree whose maximum accumulated x is nonzero —
such as a chain with a positive non-root branch length — lays out without
raising.  (A chain whose only positive branch length is the root's still
raises; see the counterexample.) -/
theorem C6_error_iff_zero_maxx :
    (∀ (K : Type) [LinearOrderedField K] (w h : K) (t : Tree (LAttr K)),
      2 ≤ t.nodeCount →
      ((layoutRectangular w h t).2 = .error .allZeroLengths ↔
        maxCumX t = 0)) ∧
    (∀ (K : Type) [LinearOrderedField K] (w h : K) (t : Tree (LAttr K)),
      isChainT t = true →
      allSubB (yrIs (some (0 : K))) ((layoutRectangular w h t).1) = true) ∧
    (∀ (K : Type) [LinearOrderedField K] (w h : K) (t : Tree (LAttr K)),
      maxCumX t ≠ 0 →
      (layoutRectangular w h t).2 = .ok ("Rectangular", "r")) := by
  refine ⟨?_, ?_, ?_⟩
  · intro K _ w h t hn
    cases t with
    | node a0 cs0 =>
      simp only [layoutRectangular]
      rw [tree_eta ((assignYrT ((0 : K), (0 : K)) (Tree.node a0 cs0)).1),
        assignYrT_kids]
      simp only [assignXrF_maxw, maxCumXF_assignYr, maxCumX, Tree.kids]
      rcases eq_or_ne (maxCumXF (0 : K) 0 cs0) 0 with hz | hz
      · simp [hz]
      · simp [hz]
  · intro K _ w h t hc
    cases t with
    | node a0 cs0 =>
      have hy := chain_assignYr ((0 : K), (0 : K)) (Tree.node a0 cs0) hc
      have hyroot := allSubB_root hy
      rw [yrIs, decide_eq_true_eq] at hyroot
      have hykids := allSubB_kids hy
      rw [assignYrT_kids] at hykids
      have hxf := yrIs_assignXrF (some (0 : K)) 0 0
        ((assignYrF ((0 : K), (0 : K)) cs0).1) hykids
      have ht2 : allSubB (yrIs (some (0 : K)))
          (Tree.node
            { (assignYrT ((0 : K), (0 : K)) (Tree.node a0 cs0)).1.attr with
                xr := some 0 }
            ((assignXrF 0 0 ((assignYrF ((0 : K), (0 : K)) cs0).1)).1)) =
            true := by
        rw [allSubB, Bool.and_eq_true, yrIs_node, decide_eq_true_eq]
        exact ⟨hyroot, hxf⟩
      simp only [layoutRectangular]
      rw [tree_eta ((assignYrT ((0 : K), (0 : K)) (Tree.node a0 cs0)).1),
        assignYrT_kids]
      dsimp only
      rcases eq_or_ne
          ((assignXrF (0 : K) 0 ((assignYrF ((0 : K), (0 : K)) cs0).1)).2) 0
        with hz | hz
      · rw [if_pos hz]
        exact ht2
      · rw [if_neg hz]
        exact zeroYr_scaleRectT
          (w / (assignXrF (0 : K) 0 ((assignYrF ((0 : K), (0 : K)) cs0).1)).2)
          (if (assignYrT ((0 : K), (0 : K)) (Tree.node a0 cs0)).2.2 > 0 then
            h / (assignYrT ((0 : K), (0 : K)) (Tree.node a0 cs0)).2.2 else 1)
          _ ht2
  · intro K _ w h t hm
    cases t with
    | node a0 cs0 =>
      have hz : maxCumXF (0 : K) 0 cs0 ≠ 0 := by
        simpa [maxCumX, Tree.kids] using hm
      simp only [layoutRectangular]
      rw [tree_eta ((assignYrT ((0 : K), (0 : K)) (Tree.node a0 cs0)).1),
        assignYrT_kids]
      simp only [assignXrF_maxw, maxCumXF_assignYr]
      simp [hz]

/-- C6, witness: the strict chain A→B→C with unit branch lengths has at
least two nodes, satisfies the error characterization, has nonzero maximum
accumulated x (it is 2) so the layout returns the success outcome without
raising, and lays out with every `yr` equal to 0. -/
theorem C6_error_iff_zero_maxx_witness :
    (2 ≤ tChainL.nodeCount ∧
      ((layoutRectangular (100 : ℚ) 100 tChainL).2 =
          .error .allZeroLengths ↔ maxCumX tChainL = 0)) ∧
    (isChainT tChainL = true ∧
      allSubB (yrIs (some (0 : ℚ)))
        ((layoutRectangular (100 : ℚ) 100 tChainL).1) = true) ∧
    (maxCumX tChainL ≠ 0 ∧
      (layoutRectangular (100 : ℚ) 100 tChainL).2 =
        .ok ("Rectangular", "r")) :=
  ⟨⟨by norm_num [tChainL, Tree.nodeCount, Forest.nodeCount],
    C6_error_iff_zero_maxx.1 ℚ 100 100 tChainL
      (by norm_num [tChainL, Tree.nodeCount, Forest.nodeCount])⟩,
   ⟨by norm_num [tChainL, isChainT],
    C6_error_iff_zero_maxx.2.1 ℚ 100 100 tChainL
      (by norm_num [tChainL, isChainT])⟩,
   ⟨by norm_num [tChainL, maxCumX, maxCumXF, maxCumXT, Tree.kids, max_def],
    C6_error_iff_zero_maxx.2.2 ℚ 100 100 tChainL
      (by norm_num [tChainL, maxCumX, maxCumXF, maxCumXT, Tree.kids,
        max_def])⟩⟩

/-- C2, counterexample: on a concrete two-node tree (with a concrete
trigonometric instantiation) the orchestrator succeeds and reports
`"Unrooted"` as the default layout — not the rectangular layout's name
`"Rectangular"` as the claim states, because `layout_algs` lists
`layout_unrooted` first. -/
theorem C2_counterexample :
    (coords zeroTrig zeroTrig 0 100 100 tTwoL).2 =
      .ok ([("Unrooted", "2"), ("Rectangular", "r")], "Unrooted") ∧
    ("Unrooted" : String) ≠ "Rectangular" := by
  constructor
  · rw [coords_tTwo]
  · decide

/-- C2, amended: the orchestrator runs the layouts in the fixed order
unrooted then rectangular (`layout_algs = (self.layout_unrooted,
self.layout_rectangular)`), and the first layout run becomes the default;
so whenever `coords` returns, the default layout is `"Unrooted"` and the
mapping lists `("Unrooted", "2")` before `("Rectangular", "r")` — for
every tree, canvas size and trigonometric instantiation. -/
theorem C2_default_layout (K : Type) [LinearOrderedField K]
    (sine cosine : K → K) (pi hh ww : K) (t t3 : Tree (LAttr K))
    (out : List (String × String) × String)
    (hc : coords sine cosine pi hh ww t = (t3, .ok out)) :
    out.2 = "Unrooted" ∧
    out.1 = [("Unrooted", "2"), ("Rectangular", "r")] := by
  delta coords at hc
  rcases hu : layoutUnrooted sine cosine pi ww hh t with ⟨tm, r1⟩
  rw [hu] at hc
  cases r1 with
  | error e => simp at hc
  | ok nm1 =>
    dsimp only at hc
    have hn1 := layoutUnrooted_names sine cosine pi ww hh t tm nm1 hu
    rcases hr : layoutRectangular ww hh
        (alterCoordinatesRelativeToRoot nm1.2 tm) with ⟨tm2, r2⟩
    rw [hr] at hc
    cases r2 with
    | error e => simp at hc
    | ok nm2 =>
      dsimp only at hc
      have hn2 := layoutRectangular_names ww hh
        (alterCoordinatesRelativeToRoot nm1.2 tm) tm2 nm2 hr
      simp only [Prod.mk.injEq] at hc
      have hout := (Except.ok.inj hc.2)
      rw [← hout, hn1, hn2]
      exact ⟨rfl, rfl⟩

/-- C2, witness: the amended theorem applied to the concrete run of
`coords` on the two-node tree. -/
theorem C2_default_layout_witness :
    coords zeroTrig zeroTrig 0 100 100 tTwoL =
      (tTwoDone,
        .ok ([("Unrooted", "2"), ("Rectangular", "r")], "Unrooted")) ∧
    (([("Unrooted", "2"), ("Rectangular", "r")], "Unrooted") :
        List (String × String) × String).2 = "Unrooted" :=
  ⟨coords_tTwo,
    (C2_default_layout ℚ zeroTrig zeroTrig 0 100 100 tTwoL tTwoDone
      ([("Unrooted", "2"), ("Rectangular", "r")], "Unrooted")
      coords_tTwo).1⟩

/-- C7: whenever the orchestrator returns successfully, the root's
coordinates are exactly `(0, 0)` under both layout suffixes — the
re-centering step subtracts the root's own coordinates for each layout
independently, the rectangular passes never touch the unrooted
attributes, and the rendering-aid pass touches neither. -/
theorem C7_root_centered (K : Type) [LinearOrderedField K]
    (sine cosine : K → K) (pi hh ww : K) (t t3 : Tree (LAttr K))
    (out : List (String × String) × String)
    (hc : coords sine cosine pi hh ww t = (t3, .ok out)) :
    t3.attr.x2 = some 0 ∧ t3.attr.y2 = some 0 ∧
    t3.attr.xr = some 0 ∧ t3.attr.yr = some 0 := by
  delta coords at hc
  rcases hu : layoutUnrooted sine cosine pi ww hh t with ⟨tm, r1⟩
  rw [hu] at hc
  cases r1 with
  | error e => simp at hc
  | ok nm1 =>
    dsimp only at hc
    have hn1 := layoutUnrooted_names sine cosine pi ww hh t tm nm1 hu
    have hroot1 := layoutUnrooted_ok_root sine cosine pi ww hh t tm nm1 hu
    rcases hr : layoutRectangular ww hh
        (alterCoordinatesRelativeToRoot nm1.2 tm) with ⟨tm2, r2⟩
    rw [hr] at hc
    cases r2 with
    | error e => simp at hc
    | ok nm2 =>
      dsimp only at hc
      have hn2 := layoutRectangular_names ww hh
        (alterCoordinatesRelativeToRoot nm1.2 tm) tm2 nm2 hr
      have hroot2 := layoutRectangular_ok_root ww hh
        (alterCoordinatesRelativeToRoot nm1.2 tm) tm2 nm2 hr
      simp only [Prod.mk.injEq] at hc
      subst hn1 hn2
      -- after centering the unrooted suffix the root's x2/y2 are 0
      obtain ⟨cx, hcx⟩ := Option.isSome_iff_exists.mp hroot1.1
      obtain ⟨cy, hcy⟩ := Option.isSome_iff_exists.mp hroot1.2
      have h2x : (alterCoordinatesRelativeToRoot "2" tm).attr.x2 = some 0 := by
        rw [center2_root_attr, hcx]
        simp
      have h2y : (alterCoordinatesRelativeToRoot "2" tm).attr.y2 = some 0 := by
        rw [center2_root_attr, hcy]
        simp
      -- the rectangular run keeps the root's x2/y2
      have htm2 : tm2 = (layoutRectangular ww hh
          (alterCoordinatesRelativeToRoot "2" tm)).1 := by
        rw [hr]
      have hrx2 : tm2.attr.x2 = some 0 := by
        rw [htm2]
        rw [(layoutRectangular_root_unrooted ww hh
          (alterCoordinatesRelativeToRoot "2" tm)).1]
        exact h2x
      have hry2 : tm2.attr.y2 = some 0 := by
        rw [htm2]
        rw [(layoutRectangular_root_unrooted ww hh
          (alterCoordinatesRelativeToRoot "2" tm)).2]
        exact h2y
      -- centering the rectangular suffix zeroes the root's xr/yr and
      -- keeps x2/y2
      obtain ⟨dx, hdx⟩ := Option.isSome_iff_exists.mp hroot2.1
      obtain ⟨dy, hdy⟩ := Option.isSome_iff_exists.mp hroot2.2
      have hrx : (alterCoordinatesRelativeToRoot "r" tm2).attr.xr = some 0 := by
        rw [centerR_root_attr, hdx]
        simp
      have hry : (alterCoordinatesRelativeToRoot "r" tm2).attr.yr = some 0 := by
        rw [centerR_root_attr, hdy]
        simp
      have hrx2c : (alterCoordinatesRelativeToRoot "r" tm2).attr.x2 =
          some 0 := by
        rw [centerR_root_attr]
        exact hrx2
      have hry2c : (alterCoordinatesRelativeToRoot "r" tm2).attr.y2 =
          some 0 := by
        rw [centerR_root_attr]
        exact hry2
      -- the rendering-aid pass keeps all four
      have hh4 := hcyrT_attr_coords (alterCoordinatesRelativeToRoot "r" tm2)
      rw [← hc.1]
      exact ⟨hh4.1.trans hrx2c, hh4.2.1.trans hry2c,
        hh4.2.2.1.trans hrx, hh4.2.2.2.trans hry⟩

/-- C7, witness: the concrete successful run of `coords` on the two-node
tree has its root at the origin under both layouts. -/
theorem C7_root_centered_witness :
    coords zeroTrig zeroTrig 0 100 100 tTwoL =
      (tTwoDone,
        .ok ([("Unrooted", "2"), ("Rectangular", "r")], "Unrooted")) ∧
    (tTwoDone.attr.x2 = some 0 ∧ tTwoDone.attr.y2 = some 0 ∧
      tTwoDone.attr.xr = some 0 ∧ tTwoDone.attr.yr = some 0) :=
  ⟨coords_tTwo,
    C7_root_centered ℚ zeroTrig zeroTrig 0 100 100 tTwoL tTwoDone
      ([("Unrooted", "2"), ("Rectangular", "r")], "Unrooted") coords_tTwo⟩

/-- C3, counterexample: the claim's "zero span contributes no constraint"
reading is false of the code.  At canvas 100×100 with an x-span of 0 and a
y-span of 2, the code's per-direction scale is 0 (the zero span forces the
`min` to 0), whereas the spec formula — zero span treated as an infinite
allowed scale — yields `(100 / 2) * 0.95 = 47.5`. -/
theorem C3_counterexample :
    dirScale (100 : ℚ) 100 0 0 2 0 = 0 ∧
    dirScaleSpec (100 : ℚ) 100 0 0 2 0 = some (95 / 2) ∧
    (0 : ℚ) ≠ 95 / 2 := by
  norm_num [dirScale, dirScaleSpec]

/-- C3, amended: when both bounding-box spans are nonzero the fitting
scale is `min(width / x_span, height / y_span) * 0.95`; but a zero span on
one axis contributes a ratio of 0 — not "no constraint" — so (for a
nonnegative canvas dimension and a well-formed bounding box) it forces the
whole scale for that direction to 0. -/
theorem C3_zero_span_forces_zero (K : Type) [LinearOrderedField K]
    (w h mx nx my ny : K) :
    (mx - nx ≠ 0 → my - ny ≠ 0 →
      dirScale w h mx nx my ny =
        min (w / (mx - nx)) (h / (my - ny)) * (95 / 100)) ∧
    (mx - nx = 0 → 0 ≤ h → ny ≤ my → dirScale w h mx nx my ny = 0) ∧
    (my - ny = 0 → 0 ≤ w → nx ≤ mx → dirScale w h mx nx my ny = 0) := by
  refine ⟨fun hx hy => by simp [dirScale, hx, hy], fun hx hh hnm => ?_,
    fun hy hw hnm => ?_⟩
  · rcases eq_or_ne (my - ny) 0 with hy | hy
    · simp [dirScale, hx, hy]
    · have hpos : 0 < my - ny := lt_of_le_of_ne (by linarith) (Ne.symm hy)
      have hdiv : 0 ≤ h / (my - ny) := div_nonneg hh hpos.le
      simp only [dirScale, hx, hy]
      rw [if_neg (by simp : ¬((0 : K) ≠ 0)), if_pos hy, min_eq_left hdiv,
        zero_mul]
  · rcases eq_or_ne (mx - nx) 0 with hx | hx
    · simp [dirScale, hx, hy]
    · have hpos : 0 < mx - nx := lt_of_le_of_ne (by linarith) (Ne.symm hx)
      have hdiv : 0 ≤ w / (mx - nx) := div_nonneg hw hpos.le
      simp only [dirScale, hx, hy]
      rw [if_pos hx, if_neg (by simp : ¬((0 : K) ≠ 0)),
        min_eq_right hdiv, zero_mul]

/-- C3, witness: the amended theorem applied at two concrete bounding
boxes — one with both spans nonzero, one with a zero x-span. -/
theorem C3_zero_span_forces_zero_witness :
    ((3 : ℚ) - 0 ≠ 0 ∧ (2 : ℚ) - 0 ≠ 0 ∧
      dirScale (100 : ℚ) 100 3 0 2 0 =
        min ((100 : ℚ) / (3 - 0)) ((100 : ℚ) / (2 - 0)) * (95 / 100)) ∧
    ((2 : ℚ) - 2 = 0 ∧ (0 : ℚ) ≤ 100 ∧ (0 : ℚ) ≤ 2 ∧
      dirScale (100 : ℚ) 100 2 2 2 0 = 0) :=
  ⟨⟨by norm_num, by norm_num,
    (C3_zero_span_forces_zero ℚ 100 100 3 0 2 0).1 (by norm_num)
      (by norm_num)⟩,
   ⟨by norm_num, by norm_num, by norm_num,
    (C3_zero_span_forces_zero ℚ 100 100 2 2 2 0).2.1 (by norm_num)
      (by norm_num) (by norm_num)⟩⟩

/-- C5, counterexample: with the real trigonometric functions, scale 1,
translation (0, 0) and starting angle 0, the root of a tree whose root
branch length is 1 receives endpoint `y2 = 0 + 1·1·cos 0 = 1 ≠ 0`: the
root's endpoint is *not* exactly its translation. -/
theorem C5_counterexample :
    ((updateUnrootedCoords Real.sin Real.cos 1 0 0 0 (2 * Real.pi)
        tTwoR).1).attr.y2 = some 1 ∧ (1 : ℝ) ≠ 0 := by
  constructor
  · rw [updateUC_root_attr]
    simp [tTwoR, Tree.attr]
  · norm_num

/-- C5, amended: `update_unrooted_coords` assigns the root its
translation `(x0, y0)` as its *start* coordinate `(x1, y1)`; the root's
*endpoint* `(x2, y2)` is the translation offset by
`length · s · (sin a, cos a)` — equal to the translation exactly when
that offset vanishes (for example when the root's branch length is 0). -/
theorem C5_root_start_and_endpoint (K : Type) [LinearOrderedField K]
    (sine cosine : K → K) (s x0 y0 a da : K) (t : Tree (LAttr K)) :
    ((updateUnrootedCoords sine cosine s x0 y0 a da t).1).attr.x1 =
      some x0 ∧
    ((updateUnrootedCoords sine cosine s x0 y0 a da t).1).attr.y1 =
      some y0 ∧
    ((updateUnrootedCoords sine cosine s x0 y0 a da t).1).attr.x2 =
      some (x0 + t.attr.length * s * sine a) ∧
    ((updateUnrootedCoords sine cosine s x0 y0 a da t).1).attr.y2 =
      some (y0 + t.attr.length * s * cosine a) := by
  rw [updateUC_root_attr]
  exact ⟨rfl, rfl, rfl, rfl⟩

/-- C4, counterexample: on the all-zero-lengths tree the rectangular
layout raises, yet the node state is not what it was before the call: the
root's `yr` was `none` before and is `some 0` afterwards (the first
coordinate pass runs before the `max_width == 0` check). -/
theorem C4_counterexample :
    (layoutRectangular (100 : ℚ) 100 tAllZeroL).2 =
      .error .allZeroLengths ∧
    tAllZeroL.attr.yr = none ∧
    ((layoutRectangular (100 : ℚ) 100 tAllZeroL).1).attr.yr = some 0 := by
  norm_num [layoutRectangular, assignYrT, assignYrF, assignXrT, assignXrF,
    tAllZeroL, Tree.attr, Forest.toList]

/-- C4, amended: a rejecting rectangular run does mutate the
rectangular-layout attributes (`xr`/`yr` hold the unscaled pass values when
the error propagates), but — whether or not the run rejects — every other
attribute of every node, in particular another layout's coordinates
(`x1`, `y1`, `x2`, `y2`, `angle`), its length and its leaf count, is left
exactly as it was before the call. -/
theorem C4_rejection_keeps_other_layouts (K : Type) [LinearOrderedField K]
    (w h : K) (t : Tree (LAttr K)) :
    eraseRectT ((layoutRectangular w h t).1) = eraseRectT t :=
  eraseRect_layoutRectangular w h t

/-- C10: `layout_rectangular` is independent of the root's own length —
running it on a tree whose root length was replaced by any value gives the
same outcome (same rejection behavior) and the same coordinates everywhere,
the only difference being the recorded root length itself. -/
theorem C10_root_length_irrelevant (K : Type) [LinearOrderedField K]
    (w h l : K) (t : Tree (LAttr K)) :
    layoutRectangular w h (setRootLength l t) =
      (setRootLength l (layoutRectangular w h t).1,
        (layoutRectangular w h t).2) := by
  obtain ⟨a, cs, hp⟩ : ∃ a cs,
      (assignYrT ((0 : K), (0 : K)) t).1 = Tree.node a cs := by
    cases hq : (assignYrT ((0 : K), (0 : K)) t).1 with
    | node x y => exact ⟨x, y, rfl⟩
  have hy := assignYrT_setRootLength ((0 : K), (0 : K)) l t
  simp only [layoutRectangular]
  rw [hy]
  simp only [hp, setRootLength]
  rcases eq_or_ne ((assignXrF (0 : K) 0 cs).2) 0 with hw | hw
  · simp [if_pos hw, setRootLength]
  · simp [if_neg hw, scaleRectT, setRootLength]

end Empress
